import Mathlib

/-!
# Verification of the callout transformation engine

A shallow embedding of `src/lib/remark-callouts.ts`: a remark plugin that
rewrites GitHub-style callout blockquotes (`> [!NOTE] ...`) in an mdast
document tree into classified, header-augmented structures.

The document tree is modelled by the inductive type `MNode`; node metadata
(`data` / `data.hProperties`) is modelled with explicit `className` fields
plus abstract association lists standing for any further fields the objects
may carry.  String operations mirror the JavaScript ones character by
character: `lowerStr` models `String.prototype.toLowerCase` (the identifiers
involved are ASCII, where the two agree), `trimLeadingWs` models
`value.replace(/^\s+/, '')` with the exact `\s` character class of
JavaScript regular expressions, and `capitalize` models
`type.charAt(0).toUpperCase() + type.slice(1)`.

The traversal `visitNode` models `visit(tree, 'blockquote', ...)` from
unist-util-visit: every node's children are traversed and the visitor body
`rewriteBlockquote` is applied to every blockquote node.  The visitor only
inspects and mutates the blockquote it is applied to (its metadata, its
first paragraph child and that paragraph's leading inline nodes), and the
synthetic title node it inserts is never itself a match, so applying the
visitor to a node's already-visited children is equal to the source's
preorder mutation; the recursion below is structured children-first so that
it is structural.
-/

namespace RemarkCallouts

/-- Model of a `data.hProperties` object: the `className` field (absent or a
list of class strings) plus any other fields, kept abstract. -/
structure HProps where
  className : Option (List String)
  rest : List (String × String)

/-- Model of a node `data` object: the `hProperties` field plus any other
fields, kept abstract. -/
structure NodeData where
  hProperties : Option HProps
  rest : List (String × String)

/-- mdast nodes, as consumed and produced by the plugin.  `linkReference`
carries its `identifier` (an `Option`, since the source guards with
`firstNode.identifier || ''`) and its children; `other` stands for every
further node kind (lists, list items, code blocks, ...), which the plugin
never inspects beyond traversing their children. -/
inductive MNode where
  | blockquote (data : Option NodeData) (children : List MNode)
  | paragraph (data : Option NodeData) (children : List MNode)
  | text (value : String)
  | html (value : String)
  | linkReference (identifier : Option String) (children : List MNode)
  | other (tag : String) (children : List MNode)

/-- The document root. -/
structure Root where
  children : List MNode

/-- Type guard `isLinkReference` from the source. -/
def isLinkReference : MNode → Bool
  | .linkReference _ _ => true
  | _ => false

/-- Type guard `isTextNode` from the source. -/
def isTextNode : MNode → Bool
  | .text _ => true
  | _ => false

/-- The check `firstChild.type !== 'paragraph'` from the source. -/
def isParagraphNode : MNode → Bool
  | .paragraph _ _ => true
  | _ => false

/-- `String.prototype.toLowerCase`, character-wise (ASCII, where it agrees
with `Char.toLower`). -/
def lowerStr (s : String) : String :=
  String.mk (s.data.map Char.toLower)

/-- The `\\s` character class of JavaScript regular expressions: tab,
line feed, vertical tab, form feed, carriage return, space, no-break space,
Ogham space mark, the U+2000..U+200A spaces, line separator, paragraph
separator, narrow no-break space, medium mathematical space, ideographic
space, and the byte-order mark. -/
def isJsWhitespace (c : Char) : Bool :=
  c == ' ' || c == '\t' || c == '\n' || c == '\r' ||
  c.val == 0x0B || c.val == 0x0C || c.val == 0xA0 || c.val == 0x1680 ||
  (0x2000 <= c.val && c.val <= 0x200A) ||
  c.val == 0x2028 || c.val == 0x2029 || c.val == 0x202F ||
  c.val == 0x205F || c.val == 0x3000 || c.val == 0xFEFF

/-- `value.replace(/^\s+/, '')`: drop the longest leading run of `\s`
characters. -/
def trimLeadingWs (s : String) : String :=
  String.mk (s.data.dropWhile isJsWhitespace)

/-- `type.charAt(0).toUpperCase() + type.slice(1)`. -/
def capitalize (s : String) : String :=
  match s.data with
  | [] => ""
  | c :: cs => String.mk (Char.toUpper c :: cs)

/-- `identifier.match(/^!(note|tip|important|warning|caution)$/i)` followed
by `match[1].toLowerCase()`: the regex is anchored at both ends and
case-insensitive, so it succeeds exactly when the lower-cased identifier is
`!` followed by one of the five keywords, and the extracted type is that
keyword in lower case. -/
def matchCallout (identifier : String) : Option String :=
  let lower := lowerStr identifier
  if lower = "!note" then some "note"
  else if lower = "!tip" then some "tip"
  else if lower = "!important" then some "important"
  else if lower = "!warning" then some "warning"
  else if lower = "!caution" then some "caution"
  else none

/-- The `iconPaths` table (Lucide icon SVG paths), keyed by callout type. -/
def iconPaths (t : String) : String :=
  if t = "note" then
    "M12 16v-4m0-4h.01M22 12c0 5.523-4.477 10-10 10S2 17.523 2 12 6.477 2 12 2s10 4.477 10 10z"
  else if t = "tip" then
    "M15 14c.2-1 .7-1.7 1.5-2.5 1-.9 1.5-2.2 1.5-3.5A6 6 0 0 0 6 8c0 1 .2 2.2 1.5 3.5.7.7 1.3 1.5 1.5 2.5M9 18h6M10 22h4"
  else if t = "important" then
    "M12 9v4m0 4h.01M10.29 3.86 1.82 18a2 2 0 0 0 1.71 3h16.94a2 2 0 0 0 1.71-3L13.71 3.86a2 2 0 0 0-3.42 0z"
  else if t = "warning" then
    "M12 9v4m0 4h.01M10.29 3.86 1.82 18a2 2 0 0 0 1.71 3h16.94a2 2 0 0 0 1.71-3L13.71 3.86a2 2 0 0 0-3.42 0z"
  else if t = "caution" then
    "M12 8v4m0 4h.01M7.86 2h8.28L22 7.86v8.28L16.14 22H7.86L2 16.14V7.86z"
  else ""

/-- The `svgIcon` HTML string built for a callout type. -/
def svgIconValue (t : String) : String :=
  "<svg class=\"callout-icon\" xmlns=\"http://www.w3.org/2000/svg\" width=\"20\" height=\"20\" viewBox=\"0 0 24 24\" fill=\"none\" stroke=\"currentColor\" stroke-width=\"2\" stroke-linecap=\"round\" stroke-linejoin=\"round\"><path d=\"" ++ iconPaths t ++ "\"/></svg>"

/-- The synthetic `titleNode`: a paragraph with class `callout-title`
holding the SVG icon leaf and the capitalized type keyword. -/
def titleNode (t : String) : MNode :=
  MNode.paragraph (some ⟨some ⟨some ["callout-title"], []⟩, []⟩)
    [MNode.html (svgIconValue t), MNode.text (capitalize t)]

/-- Lines 99-102 of the source: `data = data || {}`,
`data.hProperties = data.hProperties || {}`, then
`data.hProperties.className = ['callout', 'callout-' + type]`.  Existing
fields of `data` and of `hProperties` other than `className` are kept;
`className` is overwritten. -/
def updateData (data : Option NodeData) (t : String) : NodeData :=
  let d := data.getD ⟨none, []⟩
  let hp := d.hProperties.getD ⟨none, []⟩
  ⟨some ⟨some ["callout", "callout-" ++ t], hp.rest⟩, d.rest⟩

/-- The visitor body of `remarkCallouts` (lines 63-131 of the source),
applied to one blockquote node with metadata `data` and children
`children`.  Every guard failure returns the node unchanged. -/
def rewriteBlockquote (data : Option NodeData) (children : List MNode) : MNode :=
  match children with
  | MNode.paragraph pdata (firstNode :: prest) :: rest =>
    match firstNode with
    | MNode.linkReference ident _ =>
      match matchCallout (ident.getD "") with
      | some t =>
        let prest2 :=
          match prest with
          | MNode.text v :: ps => MNode.text (trimLeadingWs v) :: ps
          | _ => prest
        let bodyChildren :=
          match prest2 with
          | [] => rest
          | _ => MNode.paragraph pdata prest2 :: rest
        MNode.blockquote (some (updateData data t)) (titleNode t :: bodyChildren)
      | none => MNode.blockquote data children
    | _ => MNode.blockquote data children
  | _ => MNode.blockquote data children

mutual

/-- The traversal of `visit(tree, 'blockquote', ...)`: every node's children
are traversed, and the visitor body is applied to every blockquote. -/
def visitNode : MNode → MNode
  | .blockquote d cs => rewriteBlockquote d (visitList cs)
  | .paragraph d cs => .paragraph d (visitList cs)
  | .text v => .text v
  | .html v => .html v
  | .linkReference i cs => .linkReference i (visitList cs)
  | .other t cs => .other t (visitList cs)

/-- Traversal of a child list. -/
def visitList : List MNode → List MNode
  | [] => []
  | c :: cs => visitNode c :: visitList cs

end

/-- The plugin's transformer: `(tree: Root) => { visit(tree, 'blockquote', ...) }`. -/
def remarkCallouts (tree : Root) : Root :=
  ⟨visitList tree.children⟩

/-- Does a blockquote child list trigger the rewrite?  True exactly when the
first child is a paragraph whose first inline child is a link reference
whose identifier matches the callout marker pattern. -/
def matchesCallout : List MNode → Bool
  | MNode.paragraph _ (MNode.linkReference i _ :: _) :: _ =>
    (matchCallout (i.getD "")).isSome
  | _ => false

/-- The ordered child list of a node (leaves have none). -/
def MNode.childList : MNode → List MNode
  | .blockquote _ cs => cs
  | .paragraph _ cs => cs
  | .linkReference _ cs => cs
  | .other _ cs => cs
  | .text _ => []
  | .html _ => []

/-- Nest a node under a chain of generic container nodes (lists, list items,
...), with arbitrary siblings before and after at every level.  Used to
state that the traversal reaches blockquotes at every depth. -/
def wrapChain : List (String × List MNode × List MNode) → MNode → MNode
  | [], n => n
  | (tag, pre, post) :: ws, n => MNode.other tag (pre ++ wrapChain ws n :: post)

end RemarkCallouts

namespace RemarkCallouts

/-! ## Computation lemmas for the visitor body -/

/-- A blockquote whose child list does not trigger the match is returned
unchanged: every guard in the visitor body is a silent skip. -/
lemma rewriteBlockquote_skip (d : Option NodeData) (cs : List MNode)
    (h : matchesCallout cs = false) :
    rewriteBlockquote d cs = MNode.blockquote d cs := by
  cases cs with
  | nil => rfl
  | cons c rest =>
    cases c with
    | blockquote bd bcs => rfl
    | text v => rfl
    | html v => rfl
    | linkReference i lrc => rfl
    | other tg ocs => rfl
    | paragraph pd pcs =>
      cases pcs with
      | nil => rfl
      | cons fn pr =>
        cases fn with
        | blockquote bd bcs => rfl
        | paragraph pd2 pcs2 => rfl
        | text v => rfl
        | html v => rfl
        | other tg ocs => rfl
        | linkReference i lrc =>
          cases hm : matchCallout (i.getD "") with
          | none => simp [rewriteBlockquote, hm]
          | some t => simp [matchesCallout, hm] at h

/-- Matched marker with nothing after it in the paragraph: the emptied
paragraph is dropped and only the title is prepended. -/
lemma rewriteBlockquote_match_nil (d pd : Option NodeData) (ident : Option String)
    (lrc rest : List MNode) (t : String)
    (h : matchCallout (ident.getD "") = some t) :
    rewriteBlockquote d (MNode.paragraph pd [MNode.linkReference ident lrc] :: rest)
      = MNode.blockquote (some (updateData d t)) (titleNode t :: rest) := by
  simp [rewriteBlockquote, h]

/-- Matched marker followed by a text node: the text is trimmed at the
front and the paragraph is kept. -/
lemma rewriteBlockquote_match_text (d pd : Option NodeData) (ident : Option String)
    (lrc : List MNode) (v : String) (ps rest : List MNode) (t : String)
    (h : matchCallout (ident.getD "") = some t) :
    rewriteBlockquote d
        (MNode.paragraph pd (MNode.linkReference ident lrc :: MNode.text v :: ps) :: rest)
      = MNode.blockquote (some (updateData d t))
          (titleNode t :: MNode.paragraph pd (MNode.text (trimLeadingWs v) :: ps) :: rest) := by
  simp [rewriteBlockquote, h]

/-- Matched marker followed by a non-text node: the paragraph is kept as-is
after the marker is removed. -/
lemma rewriteBlockquote_match_other (d pd : Option NodeData) (ident : Option String)
    (lrc : List MNode) (x : MNode) (ps rest : List MNode) (t : String)
    (h : matchCallout (ident.getD "") = some t) (hx : isTextNode x = false) :
    rewriteBlockquote d
        (MNode.paragraph pd (MNode.linkReference ident lrc :: x :: ps) :: rest)
      = MNode.blockquote (some (updateData d t))
          (titleNode t :: MNode.paragraph pd (x :: ps) :: rest) := by
  cases x with
  | text v => simp [isTextNode] at hx
  | blockquote bd bcs => simp [rewriteBlockquote, h]
  | paragraph pd2 pcs2 => simp [rewriteBlockquote, h]
  | html v => simp [rewriteBlockquote, h]
  | linkReference i lrc2 => simp [rewriteBlockquote, h]
  | other tg ocs => simp [rewriteBlockquote, h]

/-- General shape of a matched rewrite: classification metadata from
`updateData`, the title node first, then at most one body paragraph, then
the original remaining children. -/
lemma rewriteBlockquote_match (d pd : Option NodeData) (ident : Option String)
    (lrc prest rest : List MNode) (t : String)
    (h : matchCallout (ident.getD "") = some t) :
    ∃ body,
      rewriteBlockquote d (MNode.paragraph pd (MNode.linkReference ident lrc :: prest) :: rest)
        = MNode.blockquote (some (updateData d t)) (titleNode t :: (body ++ rest))
      ∧ body.length ≤ 1
      ∧ (body = []
        ∨ ∃ pr2, body = [MNode.paragraph pd pr2]
          ∧ (pr2 = prest
            ∨ ∃ v ps, prest = MNode.text v :: ps
              ∧ pr2 = MNode.text (trimLeadingWs v) :: ps)) := by
  cases prest with
  | nil =>
    exact ⟨[], by simpa using rewriteBlockquote_match_nil d pd ident lrc rest t h, by simp,
      Or.inl rfl⟩
  | cons x ps =>
    cases x with
    | text v =>
      exact ⟨[MNode.paragraph pd (MNode.text (trimLeadingWs v) :: ps)],
        by simpa using rewriteBlockquote_match_text d pd ident lrc v ps rest t h, by simp,
        Or.inr ⟨MNode.text (trimLeadingWs v) :: ps, rfl, Or.inr ⟨v, ps, rfl, rfl⟩⟩⟩
    | blockquote bd bcs =>
      exact ⟨[MNode.paragraph pd (MNode.blockquote bd bcs :: ps)],
        by simpa using rewriteBlockquote_match_other d pd ident lrc (MNode.blockquote bd bcs) ps rest t h rfl, by simp,
        Or.inr ⟨MNode.blockquote bd bcs :: ps, rfl, Or.inl rfl⟩⟩
    | paragraph pd2 pcs2 =>
      exact ⟨[MNode.paragraph pd (MNode.paragraph pd2 pcs2 :: ps)],
        by simpa using rewriteBlockquote_match_other d pd ident lrc (MNode.paragraph pd2 pcs2) ps rest t h rfl, by simp,
        Or.inr ⟨MNode.paragraph pd2 pcs2 :: ps, rfl, Or.inl rfl⟩⟩
    | html v =>
      exact ⟨[MNode.paragraph pd (MNode.html v :: ps)],
        by simpa using rewriteBlockquote_match_other d pd ident lrc (MNode.html v) ps rest t h rfl, by simp,
        Or.inr ⟨MNode.html v :: ps, rfl, Or.inl rfl⟩⟩
    | linkReference i lrc2 =>
      exact ⟨[MNode.paragraph pd (MNode.linkReference i lrc2 :: ps)],
        by simpa using rewriteBlockquote_match_other d pd ident lrc (MNode.linkReference i lrc2) ps rest t h rfl, by simp,
        Or.inr ⟨MNode.linkReference i lrc2 :: ps, rfl, Or.inl rfl⟩⟩
    | other tg ocs =>
      exact ⟨[MNode.paragraph pd (MNode.other tg ocs :: ps)],
        by simpa using rewriteBlockquote_match_other d pd ident lrc (MNode.other tg ocs) ps rest t h rfl, by simp,
        Or.inr ⟨MNode.other tg ocs :: ps, rfl, Or.inl rfl⟩⟩

/-- The first element of `dropWhile p l`, when present, fails `p`. -/
lemma dropWhile_head_not {α : Type} (p : α → Bool) (l : List α) (c : α)
    (hc : (l.dropWhile p).head? = some c) : p c = false := by
  induction l with
  | nil => simp [List.dropWhile_nil] at hc
  | cons x xs ih =>
    rw [List.dropWhile_cons] at hc
    by_cases hp : p x
    · rw [if_pos hp] at hc
      exact ih hc
    · rw [if_neg hp] at hc
      simp only [List.head?_cons, Option.some.injEq] at hc
      subst hc
      exact Bool.eq_false_iff.mpr hp

end RemarkCallouts

namespace RemarkCallouts

/-! ## Claim theorems -/

/-- C1: a blockquote whose first child is a paragraph whose first inline
child is a link-reference with identifier matching `!` followed by one of
the five keywords (any letter case) is rewritten so that its class list is
exactly `["callout", "callout-" ++ t]` with `t` the lower-cased keyword,
and its first child is a synthetic title paragraph with class list
`["callout-title"]` holding exactly the raw-markup icon leaf followed by a
text node carrying the keyword with its first character upper-cased. -/
theorem callout_rewrite_structure (d pd : Option NodeData) (ident : Option String)
    (lrc prest rest : List MNode) (t : String)
    (h : matchCallout (ident.getD "") = some t) :
    ∃ hpRest dRest tail,
      rewriteBlockquote d (MNode.paragraph pd (MNode.linkReference ident lrc :: prest) :: rest)
        = MNode.blockquote (some ⟨some ⟨some ["callout", "callout-" ++ t], hpRest⟩, dRest⟩)
            (MNode.paragraph (some ⟨some ⟨some ["callout-title"], []⟩, []⟩)
               [MNode.html (svgIconValue t), MNode.text (capitalize t)] :: tail) := by
  obtain ⟨body, heq, -, -⟩ := rewriteBlockquote_match d pd ident lrc prest rest t h
  exact ⟨((d.getD ⟨none, []⟩).hProperties.getD ⟨none, []⟩).rest, (d.getD ⟨none, []⟩).rest,
    body ++ rest, heq⟩

/-- Witness for C1 at `[!WARNING]`: the marker matches with type `warning`
and the rewrite produces the classified node with title text `Warning`. -/
theorem callout_rewrite_structure_w :
    matchCallout ((some "!WARNING").getD "") = some "warning" ∧
    ∃ hpRest dRest tail,
      rewriteBlockquote none
          (MNode.paragraph none (MNode.linkReference (some "!WARNING") [] :: []) :: [])
        = MNode.blockquote (some ⟨some ⟨some ["callout", "callout-" ++ "warning"], hpRest⟩, dRest⟩)
            (MNode.paragraph (some ⟨some ⟨some ["callout-title"], []⟩, []⟩)
               [MNode.html (svgIconValue "warning"), MNode.text (capitalize "warning")] :: tail) :=
  ⟨by decide, callout_rewrite_structure none none (some "!WARNING") [] [] [] "warning" (by decide)⟩

/-- C3: every guard failure is a silent skip — a blockquote with zero
children, a non-paragraph first child, an empty first paragraph, a
non-link-reference first inline child, or a link-reference without an
identifier, passes through unchanged (totality of `rewriteBlockquote`
models the absence of exceptions). -/
theorem guard_failures_silent_skip (d : Option NodeData) (cs : List MNode)
    (h : cs = []
      ∨ (∃ first rest, cs = first :: rest ∧ isParagraphNode first = false)
      ∨ (∃ pd rest, cs = MNode.paragraph pd [] :: rest)
      ∨ (∃ pd fn pr rest, cs = MNode.paragraph pd (fn :: pr) :: rest ∧ isLinkReference fn = false)
      ∨ (∃ pd lrc pr rest, cs = MNode.paragraph pd (MNode.linkReference none lrc :: pr) :: rest)) :
    rewriteBlockquote d cs = MNode.blockquote d cs := by
  apply rewriteBlockquote_skip
  rcases h with rfl | ⟨first, rest, rfl, hp⟩ | ⟨pd, rest, rfl⟩ | ⟨pd, fn, pr, rest, rfl, hl⟩ |
    ⟨pd, lrc, pr, rest, rfl⟩
  · rfl
  · cases first <;> simp_all [isParagraphNode, matchesCallout]
  · rfl
  · cases fn <;> simp_all [isLinkReference, matchesCallout]
  · simp only [matchesCallout]
    decide

/-- Witness for C3: a blockquote whose only child is a text node (not a
paragraph) is skipped. -/
theorem guard_failures_silent_skip_w :
    isParagraphNode (MNode.text "plain") = false ∧
    rewriteBlockquote none [MNode.text "plain"] = MNode.blockquote none [MNode.text "plain"] :=
  ⟨rfl, guard_failures_silent_skip none [MNode.text "plain"]
    (Or.inr (Or.inl ⟨MNode.text "plain", [], rfl, rfl⟩))⟩

/-- C4: a blockquote that does not match the convention — no leading
link-reference, or an identifier that is not an exact full match of `!`
plus one of the five keywords — is left structurally identical to the
input: children, values and metadata unchanged. -/
theorem nonmatching_blockquote_unchanged (d : Option NodeData) (cs : List MNode)
    (h : matchesCallout cs = false) :
    rewriteBlockquote d cs = MNode.blockquote d cs :=
  rewriteBlockquote_skip d cs h

/-- Witness for C4 at identifier `!note extra` (trailing content inside the
brackets): the anchored pattern rejects it and the node is unchanged. -/
theorem nonmatching_blockquote_unchanged_w :
    matchesCallout [MNode.paragraph none [MNode.linkReference (some "!note extra") []]] = false ∧
    rewriteBlockquote none [MNode.paragraph none [MNode.linkReference (some "!note extra") []]]
      = MNode.blockquote none [MNode.paragraph none [MNode.linkReference (some "!note extra") []]] :=
  ⟨by decide, nonmatching_blockquote_unchanged none
    [MNode.paragraph none [MNode.linkReference (some "!note extra") []]] (by decide)⟩

/-- C5: when the matching marker is the paragraph's only content and that
paragraph is the blockquote's only child, the output children are exactly
the synthetic title node — the emptied paragraph is removed. -/
theorem marker_only_paragraph_collapsed (d pd : Option NodeData) (ident : Option String)
    (lrc : List MNode) (t : String)
    (h : matchCallout (ident.getD "") = some t) :
    ∃ d2, rewriteBlockquote d [MNode.paragraph pd [MNode.linkReference ident lrc]]
      = MNode.blockquote (some d2) [titleNode t] :=
  ⟨updateData d t, rewriteBlockquote_match_nil d pd ident lrc [] t h⟩

/-- Witness for C5 at `[!tip]` as the sole content. -/
theorem marker_only_paragraph_collapsed_w :
    matchCallout ((some "!tip").getD "") = some "tip" ∧
    ∃ d2, rewriteBlockquote none [MNode.paragraph none [MNode.linkReference (some "!tip") []]]
      = MNode.blockquote (some d2) [titleNode "tip"] :=
  ⟨by decide, marker_only_paragraph_collapsed none none (some "!tip") [] "tip" (by decide)⟩

/-- C6: when the matching marker is followed by a text node, the output
children begin with the title node and then the paragraph whose first text
value is the original one with exactly its leading whitespace characters
removed (the dropped prefix is all whitespace, the kept suffix is
byte-identical and starts with a non-whitespace character when nonempty),
the paragraph's remaining children unchanged. -/
theorem body_text_trimmed_preserved (d pd : Option NodeData) (ident : Option String)
    (lrc : List MNode) (v : String) (ps rest : List MNode) (t : String)
    (h : matchCallout (ident.getD "") = some t) :
    (∃ d2, rewriteBlockquote d
          (MNode.paragraph pd (MNode.linkReference ident lrc :: MNode.text v :: ps) :: rest)
        = MNode.blockquote (some d2)
            (titleNode t :: MNode.paragraph pd (MNode.text (trimLeadingWs v) :: ps) :: rest))
    ∧ (∃ w, v.data = w ++ (trimLeadingWs v).data ∧ ∀ c ∈ w, isJsWhitespace c = true)
    ∧ (∀ c, (trimLeadingWs v).data.head? = some c → isJsWhitespace c = false) := by
  refine ⟨⟨updateData d t, rewriteBlockquote_match_text d pd ident lrc v ps rest t h⟩,
    ⟨v.data.takeWhile isJsWhitespace, ?_, ?_⟩, ?_⟩
  · show v.data = v.data.takeWhile isJsWhitespace ++ v.data.dropWhile isJsWhitespace
    exact (List.takeWhile_append_dropWhile isJsWhitespace v.data).symm
  · intro c hcmem
    exact List.mem_takeWhile_imp hcmem
  · intro c hc
    exact dropWhile_head_not isJsWhitespace v.data c hc

/-- Witness for C6 at `[!NOTE]` followed by the text `"\n  body text"`. -/
theorem body_text_trimmed_preserved_w :
    matchCallout ((some "!NOTE").getD "") = some "note" ∧
    ((∃ d2, rewriteBlockquote none
          (MNode.paragraph none
            (MNode.linkReference (some "!NOTE") [] :: MNode.text "\n  body text" :: []) :: [])
        = MNode.blockquote (some d2)
            (titleNode "note" ::
              MNode.paragraph none
                (MNode.text (trimLeadingWs "\n  body text") :: []) :: []))
    ∧ (∃ w, ("\n  body text").data = w ++ (trimLeadingWs "\n  body text").data
        ∧ ∀ c ∈ w, isJsWhitespace c = true)
    ∧ (∀ c, (trimLeadingWs "\n  body text").data.head? = some c → isJsWhitespace c = false)) :=
  ⟨by decide, body_text_trimmed_preserved none none (some "!NOTE") [] "\n  body text" [] [] "note"
    (by decide)⟩

/-- C8: a matching marker followed by a single all-whitespace text node is
trimmed to the empty string but the paragraph node itself is kept: the
output children are the title node and a paragraph holding an empty text
node, not the title node alone. -/
theorem whitespace_only_text_paragraph_kept (d pd : Option NodeData) (ident : Option String)
    (lrc : List MNode) (v : String) (t : String)
    (h1 : matchCallout (ident.getD "") = some t)
    (h2 : ∀ c ∈ v.data, isJsWhitespace c = true) :
    ∃ d2, rewriteBlockquote d [MNode.paragraph pd [MNode.linkReference ident lrc, MNode.text v]]
      = MNode.blockquote (some d2) [titleNode t, MNode.paragraph pd [MNode.text ""]] := by
  refine ⟨updateData d t, ?_⟩
  have htrim : trimLeadingWs v = "" := by
    show String.mk (v.data.dropWhile isJsWhitespace) = ""
    rw [List.dropWhile_eq_nil_iff.mpr h2]
  have hbase := rewriteBlockquote_match_text d pd ident lrc v [] [] t h1
  rw [htrim] at hbase
  exact hbase

/-- Witness for C8 at `[!caution]` followed by the text `" \n "`. -/
theorem whitespace_only_text_paragraph_kept_w :
    matchCallout ((some "!caution").getD "") = some "caution" ∧
    (∀ c ∈ (" \n ").data, isJsWhitespace c = true) ∧
    ∃ d2, rewriteBlockquote none
        [MNode.paragraph none [MNode.linkReference (some "!caution") [], MNode.text " \n "]]
      = MNode.blockquote (some d2) [titleNode "caution", MNode.paragraph none [MNode.text ""]] :=
  ⟨by decide, by decide, whitespace_only_text_paragraph_kept none none (some "!caution") []
    " \n " "caution" (by decide) (by decide)⟩

/-- C10: rewriting a matching blockquote that already carries `data` and
`data.hProperties` preserves every other field of both objects, while
`className` is overwritten entirely (not merged) regardless of its previous
value. -/
theorem existing_data_fields_preserved (pd : Option NodeData) (ident : Option String)
    (lrc prest rest : List MNode) (t : String) (cls : Option (List String))
    (hpRest dRest : List (String × String))
    (h : matchCallout (ident.getD "") = some t) :
    ∃ cs2, rewriteBlockquote (some ⟨some ⟨cls, hpRest⟩, dRest⟩)
        (MNode.paragraph pd (MNode.linkReference ident lrc :: prest) :: rest)
      = MNode.blockquote (some ⟨some ⟨some ["callout", "callout-" ++ t], hpRest⟩, dRest⟩) cs2 := by
  obtain ⟨body, heq, -, -⟩ :=
    rewriteBlockquote_match (some ⟨some ⟨cls, hpRest⟩, dRest⟩) pd ident lrc prest rest t h
  exact ⟨titleNode t :: (body ++ rest), heq⟩

/-- Witness for C10: a prior `className` of `["old"]`, a prior `hProperties`
field and a prior `data` field all survive except `className`, which is
replaced. -/
theorem existing_data_fields_preserved_w :
    matchCallout ((some "!important").getD "") = some "important" ∧
    ∃ cs2, rewriteBlockquote
        (some ⟨some ⟨some ["old"], [("k", "v")]⟩, [("pos", "1")]⟩)
        (MNode.paragraph none (MNode.linkReference (some "!important") [] :: []) :: [])
      = MNode.blockquote
          (some ⟨some ⟨some ["callout", "callout-" ++ "important"], [("k", "v")]⟩, [("pos", "1")]⟩)
          cs2 :=
  ⟨by decide, existing_data_fields_preserved none (some "!important") [] [] []
    "important" (some ["old"]) [("k", "v")] [("pos", "1")] (by decide)⟩

end RemarkCallouts

namespace RemarkCallouts

/-- C7 (counterexample): the claim that a rewritten blockquote never has
more than one child after the title node fails on a matching blockquote
with several original children: the rewrite keeps all remaining original
children, so here two children follow the title node. -/
theorem title_tail_bound_counterexample :
    matchesCallout
        [MNode.paragraph none [MNode.linkReference (some "!note") []],
         MNode.paragraph none [MNode.text "first body paragraph"],
         MNode.paragraph none [MNode.text "second body paragraph"]] = true ∧
    ¬ ((rewriteBlockquote none
          [MNode.paragraph none [MNode.linkReference (some "!note") []],
           MNode.paragraph none [MNode.text "first body paragraph"],
           MNode.paragraph none [MNode.text "second body paragraph"]]).childList.tail.length
        ≤ 1) := by
  decide

/-- C7 (amended): a rewritten blockquote's children are the synthetic title
node, then zero or one body paragraph derived from the original first
paragraph, then the original remaining children unchanged; the
"at most one child after the title" bound holds for the body paragraph
only, not for the trailing original children. -/
theorem title_then_body_then_rest (d pd : Option NodeData) (ident : Option String)
    (lrc prest rest : List MNode) (t : String)
    (h : matchCallout (ident.getD "") = some t) :
    ∃ d2 body,
      rewriteBlockquote d (MNode.paragraph pd (MNode.linkReference ident lrc :: prest) :: rest)
        = MNode.blockquote (some d2) (titleNode t :: (body ++ rest))
      ∧ body.length ≤ 1 := by
  obtain ⟨body, heq, hlen, -⟩ := rewriteBlockquote_match d pd ident lrc prest rest t h
  exact ⟨updateData d t, body, heq, hlen⟩

/-- Witness for the amended C7 on the counterexample's shape: the marker
paragraph collapses (`body = []`) and both trailing paragraphs survive. -/
theorem title_then_body_then_rest_w :
    matchCallout ((some "!note").getD "") = some "note" ∧
    ∃ d2 body,
      rewriteBlockquote none
          (MNode.paragraph none (MNode.linkReference (some "!note") [] :: []) ::
            [MNode.paragraph none [MNode.text "first body paragraph"],
             MNode.paragraph none [MNode.text "second body paragraph"]])
        = MNode.blockquote (some d2)
            (titleNode "note" ::
              (body ++ [MNode.paragraph none [MNode.text "first body paragraph"],
                        MNode.paragraph none [MNode.text "second body paragraph"]]))
      ∧ body.length ≤ 1 :=
  ⟨by decide, title_then_body_then_rest none none (some "!note") [] []
    [MNode.paragraph none [MNode.text "first body paragraph"],
     MNode.paragraph none [MNode.text "second body paragraph"]] "note" (by decide)⟩

end RemarkCallouts

namespace RemarkCallouts

/-! ## Traversal lemmas -/

/-- The traversal distributes over list concatenation. -/
lemma visitList_append (l1 l2 : List MNode) :
    visitList (l1 ++ l2) = visitList l1 ++ visitList l2 := by
  induction l1 with
  | nil => rfl
  | cons x xs ih => simp [visitList, ih]

/-- The synthetic title node is a fixed point of the traversal: it is a
paragraph whose children are an html leaf and a text leaf. -/
lemma visitNode_titleNode (t : String) : visitNode (titleNode t) = titleNode t := rfl

/-- A blockquote that starts with the synthetic title node is never matched
again: the title's first inline child is an html leaf, not a link
reference. -/
lemma rewriteBlockquote_titleNode_cons (d : Option NodeData) (t : String) (l : List MNode) :
    rewriteBlockquote d (titleNode t :: l) = MNode.blockquote d (titleNode t :: l) := rfl

/-- Inversion for `matchesCallout`. -/
lemma matchesCallout_true_elim (cs : List MNode) (hm : matchesCallout cs = true) :
    ∃ pd ident lrc prest rest t,
      cs = MNode.paragraph pd (MNode.linkReference ident lrc :: prest) :: rest
      ∧ matchCallout (ident.getD "") = some t := by
  cases cs with
  | nil => simp [matchesCallout] at hm
  | cons c rest =>
    cases c with
    | paragraph pd pcs =>
      cases pcs with
      | nil => simp [matchesCallout] at hm
      | cons fn pr =>
        cases fn with
        | linkReference i lrc =>
          simp only [matchesCallout] at hm
          obtain ⟨t, ht⟩ := Option.isSome_iff_exists.mp hm
          exact ⟨pd, i, lrc, pr, rest, t, rfl, ht⟩
        | blockquote bd bcs => simp [matchesCallout] at hm
        | paragraph pd2 pcs2 => simp [matchesCallout] at hm
        | text v => simp [matchesCallout] at hm
        | html v => simp [matchesCallout] at hm
        | other tg ocs => simp [matchesCallout] at hm
    | blockquote bd bcs => simp [matchesCallout] at hm
    | text v => simp [matchesCallout] at hm
    | html v => simp [matchesCallout] at hm
    | linkReference i lrc => simp [matchesCallout] at hm
    | other tg ocs => simp [matchesCallout] at hm

/-- The visitor body is stable under the traversal: applied to a child list
that the traversal leaves fixed, its output is again left fixed by the
traversal (the rewritten node starts with the title node, which is never a
match). -/
lemma visit_rewrite_stable (d : Option NodeData) (cs : List MNode)
    (h : visitList cs = cs) :
    visitNode (rewriteBlockquote d cs) = rewriteBlockquote d cs := by
  cases hm : matchesCallout cs with
  | false =>
    rw [rewriteBlockquote_skip d cs hm]
    simp only [visitNode]
    rw [h, rewriteBlockquote_skip d cs hm]
  | true =>
    obtain ⟨pd, i, lrc, pr, rest, t, rfl, ht⟩ := matchesCallout_true_elim cs hm
    simp only [visitList, visitNode, List.cons.injEq, MNode.paragraph.injEq,
      MNode.linkReference.injEq, true_and, and_true, eq_self_iff_true] at h
    obtain ⟨⟨hlrc, hpr⟩, hrest⟩ := h
    obtain ⟨body, heq, -, hshape⟩ := rewriteBlockquote_match d pd i lrc pr rest t ht
    rw [heq]
    simp only [visitNode]
    have hbody : visitList body = body := by
      rcases hshape with rfl | ⟨pr2, rfl, hpr2⟩
      · rfl
      · rcases hpr2 with rfl | ⟨v, ps, hpreq, rfl⟩
        · simp only [visitList, visitNode, hpr]
        · subst hpreq
          simp only [visitList, visitNode, List.cons.injEq, true_and] at hpr
          simp only [visitList, visitNode, hpr]
    have hvl : visitList (titleNode t :: (body ++ rest)) = titleNode t :: (body ++ rest) := by
      simp only [visitList]
      rw [visitNode_titleNode, visitList_append, hbody, hrest]
    rw [hvl, rewriteBlockquote_titleNode_cons]

mutual

/-- The traversal is idempotent on single nodes. -/
theorem visitNode_idem : (n : MNode) → visitNode (visitNode n) = visitNode n
  | MNode.blockquote d cs => by
    simp only [visitNode]
    exact visit_rewrite_stable d (visitList cs) (visitList_idem cs)
  | MNode.paragraph d cs => by
    simp only [visitNode]
    rw [visitList_idem cs]
  | MNode.text v => rfl
  | MNode.html v => rfl
  | MNode.linkReference i cs => by
    simp only [visitNode]
    rw [visitList_idem cs]
  | MNode.other tg cs => by
    simp only [visitNode]
    rw [visitList_idem cs]

/-- The traversal is idempotent on child lists. -/
theorem visitList_idem : (l : List MNode) → visitList (visitList l) = visitList l
  | [] => rfl
  | c :: cs => by
    simp only [visitList]
    rw [visitNode_idem c, visitList_idem cs]

end

end RemarkCallouts

namespace RemarkCallouts

/-- C2: the transform is idempotent — applying it twice to any document
tree yields the same tree as applying it once; after the first pass no
rewritten node's first paragraph begins with a link-reference marker, so
the second pass changes nothing. -/
theorem remarkCallouts_idempotent (tree : Root) :
    remarkCallouts (remarkCallouts tree) = remarkCallouts tree := by
  cases tree with
  | mk cs =>
    simp only [remarkCallouts]
    exact congrArg Root.mk (visitList_idem cs)

/-- C9: the transform reaches every blockquote at any depth.  First
conjunct: a blockquote nested under any chain of generic container nodes
(lists, list items, ...), at any position among its siblings, has the
visitor body applied to it.  Second conjunct: a blockquote nested inside
another blockquote (at any non-head position) is itself rewritten, and the
outer blockquote is rewritten independently over the result.  Matching is
never restricted to top-level blockquotes. -/
theorem all_depths_visited :
    (∀ (ws : List (String × List MNode × List MNode)) (d : Option NodeData) (cs : List MNode),
      visitNode (wrapChain ws (MNode.blockquote d cs))
        = wrapChain (ws.map fun w => (w.1, visitList w.2.1, visitList w.2.2))
            (rewriteBlockquote d (visitList cs)))
    ∧ (∀ (d0 : Option NodeData) (c0 : MNode) (pre post : List MNode) (d : Option NodeData)
        (cs : List MNode),
      visitNode (MNode.blockquote d0 (c0 :: (pre ++ MNode.blockquote d cs :: post)))
        = rewriteBlockquote d0
            (visitNode c0 :: (visitList pre ++ rewriteBlockquote d (visitList cs) ::
              visitList post))) := by
  constructor
  · intro ws
    induction ws with
    | nil =>
      intro d cs
      simp only [wrapChain, List.map_nil, visitNode]
    | cons w ws ih =>
      intro d cs
      obtain ⟨tag, pre, post⟩ := w
      simp only [wrapChain, List.map_cons, visitNode]
      rw [visitList_append]
      simp only [visitList]
      rw [ih d cs]
  · intro d0 c0 pre post d cs
    simp only [visitNode, visitList]
    rw [visitList_append]
    simp only [visitList, visitNode]

end RemarkCallouts
